import Mathlib

/-!
# Verification of the aister feed-forward core

A shallow embedding of the two source modules:

* `src/lib.rs` — the trainable unit (struct Network): sigmoid, dot product,
  transpose, the training loop and inference (think).
* `src/activation.rs` — the activation family (Binary, Linear, Sigmoid, Tanh,
  ReLU, LeakyReLU, ParamReLU, ELU, Swish, SoftMax) operating in place on a
  mutable buffer, modelled here as list transformers.

f64 values are modelled as real numbers; an out-of-bounds index (a Rust
index-out-of-bounds abort) is modelled by Option, with none for the abort.
Rust's zip truncates to the shorter of the two iterators, and the embedding
keeps that behaviour via List.zip.
-/

/-- Network::__sigmoid from src/lib.rs: 1.0 / (1.0 + E.powf(-x)). -/
noncomputable def sigmoid (x : ℝ) : ℝ := 1 / (1 + Real.exp (-x))

/-- Network::__sigmoid_derivative from src/lib.rs: x * (1.0 - x). -/
def sigmoid_derivative (x : ℝ) : ℝ := x * (1 - x)

/-- Network::__sigmoid_derivatives from src/lib.rs: elementwise map of the derivative. -/
def sigmoid_derivatives (x : List ℝ) : List ℝ := x.map sigmoid_derivative

/-- Network::__dot_product from src/lib.rs: a.iter().zip(b.iter()).map(product).sum().
Rust's zip truncates to the shorter list, and so does List.zip. -/
def dot_product (a b : List ℝ) : ℝ := ((a.zip b).map fun p => p.1 * p.2).sum

/-- One column of Network::__transpose: v.iter().map(inner index i).collect().
Indexing inner at i aborts when i is out of bounds, giving none here. -/
def transposeRow {α : Type} (v : List (List α)) (i : ℕ) : Option (List α) :=
  match v with
  | [] => some []
  | r :: rest => (r[i]?).bind fun x => (transposeRow rest i).map fun xs => x :: xs

/-- The column loop of Network::__transpose across a list of column indices. -/
def transposeCols {α : Type} (v : List (List α)) : List ℕ → Option (List (List α))
  | [] => some []
  | i :: is => (transposeRow v i).bind fun c => (transposeCols v is).map fun cs => c :: cs

/-- Network::__transpose from src/lib.rs: (0..v[0].len()).map(column i).collect().
Reading the first row of an empty v aborts, giving none. -/
def transpose {α : Type} (v : List (List α)) : Option (List (List α)) :=
  match v with
  | [] => none
  | r :: rest => transposeCols (r :: rest) (List.range r.length)

/-- Network::__calculate_errors from src/lib.rs: elementwise product via zip. -/
def calculate_errors (a b : List ℝ) : List ℝ := (a.zip b).map fun p => p.1 * p.2

/-- Network::think from src/lib.rs: sigmoid of the dot product of the weights
with the input (weights is the first zip operand). -/
noncomputable def think (weights inputs : List ℝ) : ℝ :=
  sigmoid (dot_product weights inputs)

/-- One iteration of the loop body of Network::train from src/lib.rs:
outputs, errors, sigmoid derivatives of the outputs, transposed inputs,
elementwise error products, one adjustment per transposed row, and the
new weight list built from the old weights zipped with the adjustments.
Only the transpose can abort, so the Option comes from it alone. -/
noncomputable def trainRound (training_inputs : List (List ℝ)) (training_outputs : List ℝ)
    (weights : List ℝ) : Option (List ℝ) :=
  let output := training_inputs.map fun v => think weights v
  let error := (training_outputs.zip output).map fun p => p.1 - p.2
  let difference_values := sigmoid_derivatives output
  (transpose training_inputs).map fun transposed_inputs =>
    let calculated_errors := calculate_errors error difference_values
    let adjustment := transposed_inputs.map fun v => dot_product v calculated_errors
    (weights.zip adjustment).map fun p => p.1 + p.2

/-- Network::train from src/lib.rs: the loop body run iterations times,
threading the weights; an abort in any round aborts the call. -/
noncomputable def train (training_inputs : List (List ℝ)) (training_outputs : List ℝ)
    (iterations : ℕ) (weights : List ℝ) : Option (List ℝ) :=
  match iterations with
  | 0 => some weights
  | Nat.succ n => (trainRound training_inputs training_outputs weights).bind
      (train training_inputs training_outputs n)

/-- ReLU::derivative from src/activation.rs: 0.0 on the negative branch,
1.0 otherwise (including at exactly 0.0). -/
noncomputable def reluDerivative (v : List ℝ) : List ℝ :=
  v.map fun x => if x < 0 then 0 else 1

/-- LeakyReLU::derivative from src/activation.rs: 0.01 on the negative branch,
1.0 otherwise (including at exactly 0.0). -/
noncomputable def leakyReluDerivative (v : List ℝ) : List ℝ :=
  v.map fun x => if x < 0 then 0.01 else 1

/-- ParamReLU::derivative from src/activation.rs: the parameter on the negative
branch, 1.0 otherwise (including at exactly 0.0). -/
noncomputable def paramReluDerivative (a : ℝ) (v : List ℝ) : List ℝ :=
  v.map fun x => if x < 0 then a else 1

/-- The running maximum of SoftMax::activate: max_by over total order,
unwrap_or(0.0) on an empty buffer. -/
def bufferMax : List ℝ → ℝ
  | [] => 0
  | x :: xs => xs.foldl max x

/-- SoftMax::activate from src/activation.rs exactly as written: the code
computes x.exp() - max (subtracting the maximum AFTER exponentiating), sums
those values, and divides each by the sum. -/
noncomputable def softMaxActivate (v : List ℝ) : List ℝ :=
  let m := bufferMax v
  let s := (v.map fun n => Real.exp n - m).sum
  v.map fun x => (Real.exp x - m) / s

/-- The shifted softmax the specification describes: subtract the buffer
maximum inside the exponent argument, exponentiate, normalise by the sum.
Stated from the specification for comparison with softMaxActivate. -/
noncomputable def softMaxSpec (v : List ℝ) : List ℝ :=
  let m := bufferMax v
  let s := (v.map fun x => Real.exp (x - m)).sum
  v.map fun x => Real.exp (x - m) / s

/-- The weight-update round as the specification states it: for each weight
index j, add the sum over examples k of input k at j times delta k, where
delta k is the error times the sigmoid derivative at the output of example k,
all read from the pre-update weights. Stated from the specification for
comparison with trainRound. -/
noncomputable def roundSpec (training_inputs : List (List ℝ)) (training_outputs : List ℝ)
    (w : List ℝ) : List ℝ :=
  (List.range w.length).map fun j =>
    w.getD j 0 + ((List.range training_inputs.length).map fun k =>
      (training_inputs.getD k []).getD j 0 *
        ((training_outputs.getD k 0 - think w (training_inputs.getD k [])) *
          sigmoid_derivative (think w (training_inputs.getD k [])))).sum

/-- Claim C5: train with zero iterations returns the weights unchanged,
for every input set, target set and weight list. -/
theorem train_zero_iterations_id (training_inputs : List (List ℝ))
    (training_outputs : List ℝ) (weights : List ℝ) :
    train training_inputs training_outputs 0 weights = some weights := rfl

/-- Claim C9: SoftMax::activate on the empty buffer returns the empty buffer;
no division is performed and the result is total (some value, no abort). -/
theorem softMaxActivate_empty : softMaxActivate [] = [] := rfl

theorem zip_map_getD (f : ℝ × ℝ → ℝ) : ∀ (a b : List ℝ),
    ((a.zip b).map f) =
      (List.range (min a.length b.length)).map fun i => f (a.getD i 0, b.getD i 0)
  | [], b => by simp
  | x :: a, [] => by simp
  | x :: a, y :: b => by
    have ih := zip_map_getD f a b
    simp only [List.zip_cons_cons, List.map_cons, List.length_cons,
      Nat.succ_min_succ, List.range_succ_eq_map, List.map_map]
    refine congrArg₂ _ ?_ ?_
    · simp
    · rw [ih]
      refine List.map_congr_left fun i _ => ?_
      simp [Function.comp]

theorem dot_product_getD (a b : List ℝ) :
    dot_product a b =
      ((List.range (min a.length b.length)).map fun i => a.getD i 0 * b.getD i 0).sum := by
  rw [dot_product, zip_map_getD]

/-- Claim C7: at a buffer element equal to exactly 0.0, each ReLU-family
derivative takes the non-negative branch and returns 1.0 there (never a NaN
sentinel), for ReLU, LeakyReLU and ParamReLU alike. -/
theorem relu_family_derivative_at_zero (a : ℝ) (v : List ℝ) (i : ℕ)
    (hi : i < v.length) (h0 : v[i] = 0) :
    (reluDerivative v)[i]? = some 1 ∧ (leakyReluDerivative v)[i]? = some 1 ∧
      (paramReluDerivative a v)[i]? = some 1 := by
  have hlt : ¬ (v[i] < 0) := by rw [h0]; exact lt_irrefl 0
  refine ⟨?_, ?_, ?_⟩ <;>
    simp [reluDerivative, leakyReluDerivative, paramReluDerivative,
      List.getElem?_eq_getElem, hi, hlt]

/-- Witness for C7 at the one-element buffer holding 0.0 with parameter 5. -/
theorem relu_family_derivative_at_zero_witness :
    (0 < [(0 : ℝ)].length ∧ [(0 : ℝ)][0] = 0) ∧
      ((reluDerivative [(0 : ℝ)])[0]? = some 1 ∧
        (leakyReluDerivative [(0 : ℝ)])[0]? = some 1 ∧
        (paramReluDerivative 5 [(0 : ℝ)])[0]? = some 1) :=
  ⟨⟨by simp, by simp⟩, relu_family_derivative_at_zero 5 [0] 0 (by simp) (by simp)⟩

/-- Claim C8: train is a deterministic pure function of the initial weights,
the example set and the iteration count; two runs over equal arguments give
equal final weights. The source draws randomness only in Network::new, never
in Network::train. -/
theorem train_deterministic (i₁ i₂ : List (List ℝ)) (t₁ t₂ : List ℝ)
    (n₁ n₂ : ℕ) (w₁ w₂ : List ℝ)
    (hi : i₁ = i₂) (ht : t₁ = t₂) (hn : n₁ = n₂) (hw : w₁ = w₂) :
    train i₁ t₁ n₁ w₁ = train i₂ t₂ n₂ w₂ := by
  subst hi; subst ht; subst hn; subst hw; rfl

/-- Witness for C8 on a concrete one-example run. -/
theorem train_deterministic_witness :
    ([[(1 : ℝ)]] = [[(1 : ℝ)]] ∧ [(1 : ℝ)] = [(1 : ℝ)] ∧ 2 = 2 ∧ [(0 : ℝ)] = [(0 : ℝ)]) ∧
      train [[(1 : ℝ)]] [1] 2 [0] = train [[(1 : ℝ)]] [1] 2 [0] :=
  ⟨⟨rfl, rfl, rfl, rfl⟩,
    train_deterministic [[(1 : ℝ)]] [[(1 : ℝ)]] [1] [1] 2 2 [0] [0] rfl rfl rfl rfl⟩

/-- Claim C10: train over an empty example set with at least one iteration
aborts: the transpose reads the first input row unconditionally, so the run
is modelled as none rather than a result. -/
theorem train_empty_inputs_aborts (t : List ℝ) (w : List ℝ) (n : ℕ) (hn : 1 ≤ n) :
    train [] t n w = none := by
  cases n with
  | zero => exact absurd hn (by simp)
  | succ m => simp [train, trainRound, transpose]

/-- Witness for C10 at one iteration. -/
theorem train_empty_inputs_aborts_witness :
    1 ≤ 1 ∧ train [] [] 1 [] = none :=
  ⟨le_refl 1, train_empty_inputs_aborts [] [] 1 (le_refl 1)⟩

/-- Claim C3 counterexample: a 2-element input against a 3-weight unit does
not produce an error; think returns the numeric value sigmoid of the
truncated dot product, here sigmoid 0 = 1/2. -/
theorem think_mismatch_returns_value : think [0, 0, 0] [1, 1] = 1 / 2 := by
  simp [think, dot_product, sigmoid]
  norm_num

/-- Claim C3 amended: calling think with a 2-element input against a 3-weight
unit reports no error; it returns the activation of the dot product truncated
by zip to the first two weight/input pairs, and the weights, taken by
immutable reference, are unchanged. -/
theorem think_mismatch_truncates (w x : List ℝ) (hw : w.length = 3) (hx : x.length = 2) :
    think w x = sigmoid (w.getD 0 0 * x.getD 0 0 + w.getD 1 0 * x.getD 1 0) := by
  rw [think, dot_product_getD, hw, hx]
  norm_num [List.range_succ]

/-- Witness for the amended C3 at weights [1,1,1] and input [1,1]. -/
theorem think_mismatch_truncates_witness :
    ([(1 : ℝ), 1, 1].length = 3 ∧ [(1 : ℝ), 1].length = 2) ∧
      think [1, 1, 1] [1, 1] =
        sigmoid ([(1 : ℝ), 1, 1].getD 0 0 * [(1 : ℝ), 1].getD 0 0 +
          [(1 : ℝ), 1, 1].getD 1 0 * [(1 : ℝ), 1].getD 1 0) :=
  ⟨⟨rfl, rfl⟩, think_mismatch_truncates [1, 1, 1] [1, 1] rfl rfl⟩

/-- Claim C6: for an input of the weights' length, think computes the sigmoid
activation of the dot product of input and weights, and think is pure, so a
second call over the same arguments returns the same value. -/
theorem think_dot_then_activation (w x : List ℝ) (h : x.length = w.length) :
    think w x =
      sigmoid (((List.range w.length).map fun j => w.getD j 0 * x.getD j 0).sum) ∧
      think w x = think w x := by
  constructor
  · rw [think, dot_product_getD, h, min_self]
  · rfl

/-- Witness for C6 at weights [2,3] and input [4,5]. -/
theorem think_dot_then_activation_witness :
    [(4 : ℝ), 5].length = [(2 : ℝ), 3].length ∧
      (think [2, 3] [4, 5] =
        sigmoid (((List.range [(2 : ℝ), 3].length).map
          fun j => [(2 : ℝ), 3].getD j 0 * [(4 : ℝ), 5].getD j 0).sum) ∧
        think [2, 3] [4, 5] = think [2, 3] [4, 5]) :=
  ⟨rfl, think_dot_then_activation [2, 3] [4, 5] rfl⟩

theorem exp_two_gt_three : (3 : ℝ) < Real.exp 2 := by
  have h := Real.add_one_lt_exp (x := 2) (by norm_num)
  linarith

theorem bufferMax_zero_two : bufferMax [0, 2] = 2 := by
  have hmax : max (0 : ℝ) 2 = 2 := max_eq_right (by norm_num)
  simp [bufferMax, hmax]

theorem softMaxActivate_zero_two :
    softMaxActivate [0, 2] =
      [(Real.exp 0 - 2) / (Real.exp 0 - 2 + (Real.exp 2 - 2)),
       (Real.exp 2 - 2) / (Real.exp 0 - 2 + (Real.exp 2 - 2))] := by
  simp [softMaxActivate, bufferMax_zero_two]

theorem softMaxSpec_zero_two :
    softMaxSpec [0, 2] =
      [Real.exp (0 - 2) / (Real.exp (0 - 2) + Real.exp (2 - 2)),
       Real.exp (2 - 2) / (Real.exp (0 - 2) + Real.exp (2 - 2))] := by
  simp [softMaxSpec, bufferMax_zero_two]

/-- Claim C1: refuted on the code. SoftMax::activate subtracts the buffer
maximum AFTER exponentiating (x.exp() - max), not inside the exponent
argument, so on the buffer [0,2] it differs from the shifted softmax the
claim states: the code's first output is negative while the shifted
softmax's first output is positive. -/
theorem softMaxActivate_ne_spec : softMaxActivate [0, 2] ≠ softMaxSpec [0, 2] := by
  intro h
  rw [softMaxActivate_zero_two, softMaxSpec_zero_two] at h
  have h1 : (Real.exp 0 - 2) / (Real.exp 0 - 2 + (Real.exp 2 - 2)) =
      Real.exp (0 - 2) / (Real.exp (0 - 2) + Real.exp (2 - 2)) :=
    (List.cons.injEq _ _ _ _).mp h |>.1
  have h3 : (3 : ℝ) < Real.exp 2 := exp_two_gt_three
  have hl : (Real.exp 0 - 2) / (Real.exp 0 - 2 + (Real.exp 2 - 2)) < 0 := by
    rw [Real.exp_zero]
    exact div_neg_of_neg_of_pos (by norm_num) (by linarith)
  have hr : 0 < Real.exp (0 - 2) / (Real.exp (0 - 2) + Real.exp (2 - 2)) :=
    div_pos (Real.exp_pos _) (by positivity)
  rw [h1] at hl
  linarith

/-- Claim C2: refuted on the code. On the buffer [0,2] the first output of
SoftMax::activate is negative, hence not every output lies in [0,1]. -/
theorem softMaxActivate_not_in_unit_interval :
    ¬ (∀ x ∈ softMaxActivate [0, 2], 0 ≤ x ∧ x ≤ 1) := by
  intro h
  have h3 : (3 : ℝ) < Real.exp 2 := exp_two_gt_three
  have hmem : (Real.exp 0 - 2) / (Real.exp 0 - 2 + (Real.exp 2 - 2)) ∈
      softMaxActivate [0, 2] := by
    rw [softMaxActivate_zero_two]
    exact List.mem_cons_self _ _
  have h0 := (h _ hmem).1
  have hl : (Real.exp 0 - 2) / (Real.exp 0 - 2 + (Real.exp 2 - 2)) < 0 := by
    rw [Real.exp_zero]
    exact div_neg_of_neg_of_pos (by norm_num) (by linarith)
  linarith

theorem transposeRow_eq {α : Type} (d : α) (v : List (List α)) (i : ℕ)
    (h : ∀ r ∈ v, i < r.length) :
    transposeRow v i = some (v.map fun r => r.getD i d) := by
  induction v with
  | nil => rfl
  | cons r rest ih =>
    have h1 : i < r.length := h r (List.mem_cons_self r rest)
    have h2 : r[i]? = some (r.getD i d) := by
      rw [List.getElem?_eq_getElem h1, List.getD_eq_getElem r d h1]
    have h3 := ih fun s hs => h s (List.mem_cons_of_mem r hs)
    show (r[i]?).bind (fun x => (transposeRow rest i).map fun xs => x :: xs) = _
    rw [h2, h3]
    rfl

theorem transposeCols_eq {α : Type} (d : α) (v : List (List α)) (is : List ℕ)
    (h : ∀ i ∈ is, ∀ r ∈ v, i < r.length) :
    transposeCols v is = some (is.map fun i => v.map fun r => r.getD i d) := by
  induction is with
  | nil => rfl
  | cons i js ih =>
    have h1 := transposeRow_eq d v i (h i (List.mem_cons_self i js))
    have h2 := ih fun j hj => h j (List.mem_cons_of_mem i hj)
    show (transposeRow v i).bind (fun c => (transposeCols v js).map fun cs => c :: cs) = _
    rw [h1, h2]
    rfl

theorem transpose_eq {α : Type} (d : α) (v : List (List α)) (n : ℕ) (hne : v ≠ [])
    (hlen : ∀ r ∈ v, r.length = n) :
    transpose v = some ((List.range n).map fun i => v.map fun r => r.getD i d) := by
  cases v with
  | nil => exact absurd rfl hne
  | cons r rest =>
    have hr : r.length = n := hlen r (List.mem_cons_self r rest)
    show transposeCols (r :: rest) (List.range r.length) = _
    rw [hr]
    exact transposeCols_eq d (r :: rest) (List.range n) fun i hi s hs =>
      (hlen s hs) ▸ List.mem_range.mp hi

theorem calculated_errors_getD (tout : List ℝ) (output : List ℝ) (k : ℕ)
    (hk : k < tout.length) (hk2 : k < output.length) :
    (calculate_errors ((tout.zip output).map fun p => p.1 - p.2)
        (sigmoid_derivatives output)).getD k 0 =
      (tout[k] - output[k]) * sigmoid_derivative output[k] := by
  have hlen : k < (calculate_errors ((tout.zip output).map fun p => p.1 - p.2)
      (sigmoid_derivatives output)).length := by
    simp [calculate_errors, sigmoid_derivatives]
    omega
  rw [List.getD_eq_getElem _ 0 hlen]
  simp [calculate_errors, sigmoid_derivatives]

theorem trainRound_eq_roundSpec (ti : List (List ℝ)) (tout : List ℝ) (w : List ℝ)
    (hne : ti ≠ []) (hlen : ∀ r ∈ ti, r.length = w.length) (ht : tout.length = ti.length) :
    trainRound ti tout w = some (roundSpec ti tout w) := by
  rw [trainRound, transpose_eq (0 : ℝ) ti w.length hne hlen]
  refine congrArg some ?_
  refine List.ext_getElem ?_ fun j h1 h2 => ?_
  · simp [roundSpec, ht]
  · have hj : j < w.length := by
      simpa [roundSpec] using h2
    simp only [List.getElem_map, List.getElem_zip, List.getElem_range, roundSpec]
    rw [List.getD_eq_getElem w 0 hj, dot_product_getD]
    have hlens : min (ti.map fun r => r.getD j 0).length
        (calculate_errors ((tout.zip (ti.map fun v => think w v)).map fun p => p.1 - p.2)
          (sigmoid_derivatives (ti.map fun v => think w v))).length = ti.length := by
      simp [calculate_errors, sigmoid_derivatives, ht]
    rw [hlens]
    refine congrArg (w[j] + ·) (congrArg List.sum (List.map_congr_left fun k hk => ?_))
    have hk' : k < ti.length := List.mem_range.mp hk
    have hkt : k < tout.length := ht ▸ hk'
    have hko : k < (ti.map fun v => think w v).length := by simpa using hk'
    rw [calculated_errors_getD tout (ti.map fun v => think w v) k hkt hko]
    rw [List.getD_eq_getElem (ti.map fun r => r.getD j 0) 0 (by simpa using hk')]
    rw [List.getD_eq_getElem ti [] hk', List.getD_eq_getElem tout 0 hkt]
    simp

theorem roundSpec_length (ti : List (List ℝ)) (tout : List ℝ) (w : List ℝ) :
    (roundSpec ti tout w).length = w.length := by
  simp [roundSpec]

/-- Claim C4: for a non-empty example set whose input rows all have the
weights' length and whose target list matches it, train performs exactly
n rounds, each computing outputs, errors, deltas and summed per-weight
adjustments from that round's pre-update weights and only then replacing
every weight simultaneously: train equals n-fold iteration of the
specification's round update. -/
theorem train_eq_iterated_roundSpec (ti : List (List ℝ)) (tout : List ℝ) (n : ℕ) (w : List ℝ)
    (hne : ti ≠ []) (hlen : ∀ r ∈ ti, r.length = w.length) (ht : tout.length = ti.length) :
    train ti tout n w = some ((roundSpec ti tout)^[n] w) := by
  induction n generalizing w with
  | zero => rfl
  | succ m ih =>
    rw [train, trainRound_eq_roundSpec ti tout w hne hlen ht, Option.some_bind,
      ih (roundSpec ti tout w) fun r hr => (hlen r hr).trans (roundSpec_length ti tout w).symm,
      Function.iterate_succ_apply]

/-- Witness for C4 at one example [[1]] with target [1], one iteration,
starting weight [0]. -/
theorem train_eq_iterated_roundSpec_witness :
    ([[(1 : ℝ)]] ≠ ([] : List (List ℝ)) ∧ (∀ r ∈ [[(1 : ℝ)]], r.length = [(0 : ℝ)].length) ∧
      [(1 : ℝ)].length = [[(1 : ℝ)]].length) ∧
      train [[(1 : ℝ)]] [1] 1 [0] = some ((roundSpec [[(1 : ℝ)]] [1])^[1] [0]) :=
  ⟨⟨by simp, by simp, rfl⟩,
    train_eq_iterated_roundSpec [[(1 : ℝ)]] [1] 1 [0] (by simp) (by simp) rfl⟩
